import Mathlib

/-!
Verification development for the `mcp-for-docs` documentation crawler and
categorizer.  The TypeScript sources (`src/crawler/index.ts`,
`src/utils/url.ts`, the `DocumentationCategorizer`, and the file utilities)
are shallowly embedded below: pure functions become Lean functions, the
crawler's instance state becomes an explicit `Session` value threaded through
the traversal, external collaborators (the Playwright renderer, the HTML
extractor, the filesystem, Node's WHATWG URL parser and the JS `RegExp`
engine applied to user-supplied glob patterns) become fields of an `Env`
record.  JS `number` values are modelled as exact rationals (`JsNum`, an
unreduced numerator/denominator pair interpreted into `ℚ` by `JsNum.val`);
IEEE-754 rounding is abstracted away, which does not affect any statement
proved here.  String helpers are written over `List Char` so that every
definition evaluates inside the kernel.
-/

set_option maxRecDepth 16384

namespace McpDocs

/-! ### String helpers (kernel-evaluable models of JS string primitives) -/

/-- `s.toLowerCase()` (ASCII case folding; URLs and the fixed keyword lists
only involve ASCII). -/
def strLower (s : String) : String := ⟨s.data.map Char.toLower⟩

/-- `s.startsWith(p)`. -/
def strStartsWith (s p : String) : Bool := p.data.isPrefixOf s.data

/-- `s.endsWith(p)`. -/
def strEndsWith (s p : String) : Bool := p.data.isSuffixOf s.data

/-- Drop the first `n` characters. -/
def strDrop (s : String) (n : Nat) : String := ⟨s.data.drop n⟩

/-- Drop the last `n` characters. -/
def strDropRight (s : String) (n : Nat) : String := ⟨s.data.take (s.data.length - n)⟩

/-- `s.trim()`: strip leading and trailing whitespace. -/
def strTrim (s : String) : String :=
  ⟨((s.data.dropWhile Char.isWhitespace).reverse.dropWhile Char.isWhitespace).reverse⟩

/-- `array.join(sep)`. -/
def strJoin (sep : String) : List String → String
  | [] => ""
  | [x] => x
  | x :: xs => x ++ sep ++ strJoin sep xs

/-- `s.replace(/c/g, rep)` for a single-character pattern. -/
def strReplaceChar (s : String) (c : Char) (rep : String) : String :=
  ⟨s.data.foldr (fun x acc => (if x = c then rep.data else [x]) ++ acc) []⟩

/-! ### JS numbers

The categorizer's confidence arithmetic uses only exact decimal literals, so
a JS `number` is modelled as an unreduced fraction with the usual exact
rational semantics.  Denominators are positive for every value the embedded
code constructs. -/

structure JsNum where
  num : Int
  den : Nat
deriving DecidableEq, Repr

namespace JsNum

/-- Shorthand constructor, `q n d` stands for the JS literal `n/d`. -/
def q (n : Int) (d : Nat) : JsNum := ⟨n, d⟩

def add (a b : JsNum) : JsNum := ⟨a.num * b.den + b.num * a.den, a.den * b.den⟩

def mul (a b : JsNum) : JsNum := ⟨a.num * b.num, a.den * b.den⟩

/-- `a < b` (correct for positive denominators). -/
def blt (a b : JsNum) : Bool := a.num * b.den < b.num * a.den

/-- `Math.min`. -/
def jmin (a b : JsNum) : JsNum := if blt b a then b else a

/-- `Math.max`. -/
def jmax (a b : JsNum) : JsNum := if blt a b then b else a

/-- The rational value denoted by a JS number. -/
def val (a : JsNum) : ℚ := (a.num : ℚ) / (a.den : ℚ)

/-- A JS number as built by the embedded code: positive denominator. -/
def Wf (a : JsNum) : Prop := 0 < a.den

end JsNum

/-! ### Character-list scanning primitives

These implement, over `List Char`, the handful of concrete regular
expressions the categorizer applies (`analyzeUrl` / `analyzeContent` in the
`DocumentationCategorizer`).  All patterns there are fixed literals, so each
is compiled by hand to a decidable scanner.  Scanning is done on the
lowercased text, which models the `/i` flag of every regex involved. -/

/-- Does `n` occur as a contiguous substring of `h`? -/
def hasSubList (n : List Char) : List Char → Bool
  | [] => n.isEmpty
  | c :: t => n.isPrefixOf (c :: t) || hasSubList n t

/-- String wrapper for `hasSubList`. -/
def hasSubstr (h n : String) : Bool := hasSubList n.data h.data

/-- Count non-overlapping occurrences of `n` in the hay, advancing past each
match, as a JS global regex does.  `skip` is the number of characters still
to be skipped after a match. -/
def countOccsAux (n : List Char) : List Char → Nat → Nat
  | [], _ => 0
  | _ :: t, Nat.succ k => countOccsAux n t k
  | c :: t, 0 =>
      if n ≠ [] ∧ n.isPrefixOf (c :: t) then 1 + countOccsAux n t (n.length - 1)
      else countOccsAux n t 0

/-- Number of matches counted by
`(contentLower.match(new RegExp(ind, 'gi')) || []).length` for a literal
indicator `ind`. -/
def countOccs (hay needle : String) : Nat := countOccsAux needle.data hay.data 0

/-- Drop a (possibly empty) run of whitespace, the greedy reading of `\s*`. -/
def skipWs : List Char → List Char
  | [] => []
  | c :: t => if c.isWhitespace then skipWs t else c :: t

/-- Match a sequence of literal tokens separated by mandatory whitespace
(`tok1\s+tok2\s+...`) at the head of the input.  Every token used below
starts with a non-whitespace character, so greedy whitespace consumption is
equivalent to the regex semantics. -/
def matchToksAt : List (List Char) → List Char → Bool
  | [], _ => true
  | [t], l => t.isPrefixOf l
  | t :: ts, l =>
      t.isPrefixOf l &&
        (match l.drop t.length with
         | [] => false
         | c :: r => c.isWhitespace && matchToksAt ts (skipWs (c :: r)))

/-- Does the token sequence match anywhere in the character list? -/
def scanToks (toks : List (List Char)) : List Char → Bool
  | [] => matchToksAt toks []
  | c :: t => matchToksAt toks (c :: t) || scanToks toks t

/-- Case-insensitive unanchored match of a whitespace-separated token
sequence, modelling regexes of the shape `/tok1\s+tok2\s+tok3/i`. -/
def containsToks (toks : List String) (s : String) : Bool :=
  scanToks (toks.map (fun t => t.data)) (strLower s).data

/-- After `/v`, accept `\d*\/` given that at least one digit was read. -/
def digitsThenSlash : List Char → Bool
  | [] => false
  | c :: t => if c.isDigit then digitsThenSlash t else c = '/'

/-- Does `/v\d+\//` match at the head of the list? -/
def vnumHere : List Char → Bool
  | '/' :: 'v' :: c :: rest => c.isDigit && digitsThenSlash (c :: rest)
  | _ => false

/-- Unanchored `/\/v\d+\//i` over a lowercased character list. -/
def hasVNum : List Char → Bool
  | [] => false
  | c :: t => vnumHere (c :: t) || hasVNum t

/-- A character the dot of a JS regex (no `s` flag) can match. -/
def dotChar (c : Char) : Bool := c ≠ '\n' && c ≠ '\r'

/-- Scan for `\/api(?:\/|$)` reachable through dot-matchable gap characters. -/
def findApiEnd : List Char → Bool
  | [] => false
  | c :: t =>
      (('/' :: 'a' :: 'p' :: 'i' :: []).isPrefixOf (c :: t) &&
        (match (c :: t).drop 4 with
         | [] => true
         | d :: _ => d = '/')) ||
      (dotChar c && findApiEnd t)

/-- Unanchored `/docs\..*\/api(?:\/|$)/i` over a lowercased character list. -/
def findDocsApi : List Char → Bool
  | [] => false
  | c :: t =>
      (("docs.".data.isPrefixOf (c :: t)) && findApiEnd ((c :: t).drop 5)) ||
      findDocsApi t

/-! ### Categorizer (`DocumentationCategorizer`) -/

/-- The category labels appearing in the TS union types
`'tools' | 'apis'` and `'tools' | 'apis' | 'unknown'`. -/
inductive Category where
  | tools
  | apis
  | unknown
deriving DecidableEq, Repr

/-- String form of a category, as interpolated into reasons and paths. -/
def categoryStr : Category → String
  | .tools => "tools"
  | .apis => "apis"
  | .unknown => "unknown"

structure CategorizationResult where
  category : Category
  confidence : JsNum
  reasons : List String
deriving DecidableEq, Repr

structure UrlAnalysisResult where
  category : Category
  confidence : JsNum
  matchedPatterns : List String
deriving DecidableEq, Repr

structure ContentAnalysisResult where
  category : Category
  confidence : JsNum
  indicators : List String
deriving DecidableEq, Repr

/-- `apiUrlPatterns`: each entry is the regex's `source` string paired with
its compiled test on the lowercased URL. -/
def apiUrlPatterns : List (String × (String → Bool)) :=
  [("\\/api\\/", fun lu => hasSubstr lu "/api/"),
   ("\\/reference\\/", fun lu => hasSubstr lu "/reference/"),
   ("\\/rest\\/", fun lu => hasSubstr lu "/rest/"),
   ("\\/graphql\\/", fun lu => hasSubstr lu "/graphql/"),
   ("\\/endpoints?\\/", fun lu => hasSubstr lu "/endpoint/" || hasSubstr lu "/endpoints/"),
   ("\\/swagger\\/", fun lu => hasSubstr lu "/swagger/"),
   ("\\/openapi\\/", fun lu => hasSubstr lu "/openapi/"),
   ("api\\.", fun lu => hasSubstr lu "api."),
   ("developers?\\.", fun lu => hasSubstr lu "developer." || hasSubstr lu "developers."),
   ("\\/v\\d+\\/", fun lu => hasVNum lu.data)]

/-- `toolUrlPatterns`, same representation. -/
def toolUrlPatterns : List (String × (String → Bool)) :=
  [("\\/docs?\\/", fun lu => hasSubstr lu "/doc/" || hasSubstr lu "/docs/"),
   ("\\/guide\\/", fun lu => hasSubstr lu "/guide/"),
   ("\\/tutorial\\/", fun lu => hasSubstr lu "/tutorial/"),
   ("\\/getting[_-]?started\\/", fun lu =>
      hasSubstr lu "/gettingstarted/" || hasSubstr lu "/getting_started/" ||
        hasSubstr lu "/getting-started/"),
   ("\\/learn\\/", fun lu => hasSubstr lu "/learn/"),
   ("\\/manual\\/", fun lu => hasSubstr lu "/manual/"),
   ("\\/handbook\\/", fun lu => hasSubstr lu "/handbook/"),
   ("docs\\.", fun lu => hasSubstr lu "docs."),
   ("help\\.", fun lu => hasSubstr lu "help."),
   ("support\\.", fun lu => hasSubstr lu "support."),
   ("learn\\.", fun lu => hasSubstr lu "learn."),
   ("\\/install", fun lu => hasSubstr lu "/install"),
   ("\\/setup", fun lu => hasSubstr lu "/setup")]

/-- `^(https?:\/\/)?(api|developer|developers)\./i` on the URL. -/
def apiSubdomainTest (lu : String) : Bool :=
  let rest := if strStartsWith lu "https://" then strDrop lu 8
              else if strStartsWith lu "http://" then strDrop lu 7
              else lu
  strStartsWith rest "api." || strStartsWith rest "developer." ||
    strStartsWith rest "developers."

/-- `\/(api|reference|rest|graphql|endpoints?|swagger|openapi)\//i` on the URL. -/
def apiPathSegTest (lu : String) : Bool :=
  hasSubstr lu "/api/" || hasSubstr lu "/reference/" || hasSubstr lu "/rest/" ||
    hasSubstr lu "/graphql/" || hasSubstr lu "/endpoint/" || hasSubstr lu "/endpoints/" ||
    hasSubstr lu "/swagger/" || hasSubstr lu "/openapi/"

/-- The decision chain of `analyzeUrl`, parameterized by the lowercased URL
and the two matched-pattern lists. -/
def urlDecision (lu : String) (mApi mTool : List String) : UrlAnalysisResult :=
  if mApi.length > 0 ∧ mTool.length > 0 ∧ apiSubdomainTest lu then
    ⟨.apis, JsNum.q 85 100, mApi⟩
  else if mApi.length > 0 ∧ mTool.length > 0 ∧ apiPathSegTest lu then
    ⟨.apis, JsNum.q 85 100, mApi⟩
  else if mApi.length > mTool.length then
    ⟨.apis, JsNum.jmin ((JsNum.q 8 10).add ((JsNum.q mApi.length 1).mul (JsNum.q 1 10)))
       (JsNum.q 95 100), mApi⟩
  else if mTool.length > mApi.length then
    if findDocsApi lu.data then
      ⟨.apis, JsNum.q 8 10, mApi⟩
    else
      ⟨.tools, JsNum.jmin ((JsNum.q 8 10).add ((JsNum.q mTool.length 1).mul (JsNum.q 1 10)))
         (JsNum.q 95 100), mTool⟩
  else if mApi.length > 0 ∧ mTool.length > 0 then
    ⟨.unknown, JsNum.q 5 10, mApi ++ mTool⟩
  else
    ⟨.unknown, JsNum.q 3 10, []⟩

/-- `DocumentationCategorizer.analyzeUrl`: collect the matched pattern
sources over the lowercased URL, then decide. -/
def analyzeUrl (url : String) : UrlAnalysisResult :=
  urlDecision (strLower url)
    ((apiUrlPatterns.filter (fun p => p.2 (strLower url))).map (fun p => p.1))
    ((toolUrlPatterns.filter (fun p => p.2 (strLower url))).map (fun p => p.1))

def apiContentIndicators : List String :=
  ["endpoint", "request", "response", "authentication", "authorization",
   "rate limit", "api key", "access token", "http method", "status code",
   "query parameter", "request body", "response body", "bearer token",
   "webhook", "rest api", "graphql", "mutation", "subscription"]

def toolContentIndicators : List String :=
  ["installation", "configuration", "workflow", "getting started", "tutorial",
   "quick start", "how to", "step by step", "user guide", "features",
   "requirements", "dependencies", "cli", "command line", "desktop app",
   "plugin", "extension", "interface", "settings"]

/-- `curl\s+-X\s+(GET|POST|PUT|DELETE|PATCH)/i`. -/
def hasCurlExample (content : String) : Bool :=
  containsToks ["curl", "-x", "get"] content ||
    containsToks ["curl", "-x", "post"] content ||
    containsToks ["curl", "-x", "put"] content ||
    containsToks ["curl", "-x", "delete"] content ||
    containsToks ["curl", "-x", "patch"] content

/-- The character class `['"` and backtick `]`. -/
def quoteChar (c : Char) : Bool :=
  c = '\'' || c = '"' || c = Char.ofNat 96

def isHttpMethodPrefix (l : List Char) : Bool :=
  "get".data.isPrefixOf l || "post".data.isPrefixOf l || "put".data.isPrefixOf l ||
    "delete".data.isPrefixOf l || "patch".data.isPrefixOf l

/-- After `method:` come `\s*`, a quote and a method name. -/
def fetchAfterMethod (l : List Char) : Bool :=
  match skipWs l with
  | [] => false
  | q :: rest => quoteChar q && isHttpMethodPrefix rest

/-- Inside the options object: characters other than a closing brace, then
`method:` and the method part. -/
def fetchInBrace : List Char → Bool
  | [] => false
  | c :: t =>
      ("method:".data.isPrefixOf (c :: t) && fetchAfterMethod ((c :: t).drop 7)) ||
      (c ≠ Char.ofNat 125 && fetchInBrace t)

/-- After the closing quote of the first argument: `\s*,\s*` and an opening
brace. -/
def fetchAfterArg (l : List Char) : Bool :=
  match skipWs l with
  | ',' :: rest =>
      (match skipWs rest with
       | b :: l2 => b = Char.ofNat 123 && fetchInBrace l2
       | [] => false)
  | _ => false

/-- The `.*` gap followed by a quote: any split into dot-matchable characters
plus a quote. -/
def fetchAfterQuote : List Char → Bool
  | [] => false
  | c :: t => (quoteChar c && fetchAfterArg t) || (dotChar c && fetchAfterQuote t)

/-- `fetch\(` at the head, a quote, then the rest of the fetch-call pattern. -/
def fetchHere (l : List Char) : Bool :=
  "fetch(".data.isPrefixOf l &&
    (match l.drop 6 with
     | [] => false
     | q :: rest => quoteChar q && fetchAfterQuote rest)

/-- Unanchored scan for the second `hasRestExamples` alternative (a `fetch`
call whose options object carries an HTTP `method:`). -/
def hasFetchExample : List Char → Bool
  | [] => false
  | c :: t => fetchHere (c :: t) || hasFetchExample t

/-- `/\$\s+npm\s+install/i` and the three sibling CLI patterns. -/
def hasCliExample (content : String) : Bool :=
  containsToks ["$", "npm", "install"] content ||
    containsToks ["$", "yarn", "add"] content ||
    containsToks ["$", "pip", "install"] content ||
    containsToks ["$", "brew", "install"] content

/-- The score comparison of `analyzeContent` (the scores are the lengths of
the two indicator lists, compared with a `1.5` factor). -/
def contentDecision (foundApi foundTool : List String) : ContentAnalysisResult :=
  if JsNum.blt ((JsNum.q foundTool.length 1).mul (JsNum.q 15 10))
      (JsNum.q foundApi.length 1) then
    ⟨.apis, JsNum.jmin ((JsNum.q 7 10).add ((JsNum.q foundApi.length 1).mul (JsNum.q 3 100)))
       (JsNum.q 95 100), foundApi⟩
  else if JsNum.blt ((JsNum.q foundApi.length 1).mul (JsNum.q 15 10))
      (JsNum.q foundTool.length 1) then
    ⟨.tools, JsNum.jmin ((JsNum.q 7 10).add ((JsNum.q foundTool.length 1).mul (JsNum.q 3 100)))
       (JsNum.q 95 100), foundTool⟩
  else if foundApi.length > 0 ∧ foundTool.length > 0 then
    ⟨.unknown, JsNum.q 5 10, foundApi ++ foundTool⟩
  else
    ⟨.unknown, JsNum.q 3 10, []⟩

/-- One found-indicator entry: the indicator with its occurrence count. -/
def indicatorEntries (indicators : List String) (cl : String) : List String :=
  indicators.filterMap (fun ind =>
    if countOccs cl ind > 0 then
      some (ind ++ " (" ++ toString (countOccs cl ind) ++ "x)") else none)

/-- `DocumentationCategorizer.analyzeContent`. -/
def analyzeContent (content : String) : ContentAnalysisResult :=
  contentDecision
    (indicatorEntries apiContentIndicators (strLower content) ++
      (if hasCurlExample content || hasFetchExample (strLower content).data then
        ["REST API examples"] else []))
    (indicatorEntries toolContentIndicators (strLower content) ++
      (if hasCliExample content then ["CLI installation examples"] else []))

/-- `DocumentationCategorizer.combineScores`. -/
def combineScores (urlScore : UrlAnalysisResult)
    (contentScore : Option ContentAnalysisResult) : CategorizationResult :=
  match contentScore with
  | none =>
      if urlScore.category ≠ Category.unknown then
        ⟨urlScore.category, urlScore.confidence,
         ["URL patterns matched: " ++ strJoin ", " urlScore.matchedPatterns]⟩
      else
        ⟨.tools, JsNum.q 3 10, ["No clear URL patterns found, defaulting to tools"]⟩
  | some cs =>
      if urlScore.category = cs.category ∧ urlScore.category ≠ Category.unknown then
        ⟨urlScore.category, JsNum.jmax urlScore.confidence cs.confidence,
         (if urlScore.matchedPatterns.length > 0 then
            ["URL patterns: " ++ strJoin ", " urlScore.matchedPatterns] else []) ++
         (if cs.indicators.length > 0 then
            ["Content indicators: " ++ strJoin ", " (cs.indicators.take 5)] else [])⟩
      else if JsNum.blt urlScore.confidence cs.confidence ∧ cs.category ≠ Category.unknown then
        ⟨cs.category, cs.confidence.mul (JsNum.q 75 100),
         ["Content analysis suggests " ++ categoryStr cs.category,
          "Content indicators: " ++ strJoin ", " (cs.indicators.take 5)]⟩
      else if urlScore.category ≠ Category.unknown then
        ⟨urlScore.category, JsNum.jmin (urlScore.confidence.mul (JsNum.q 75 100)) (JsNum.q 79 100),
         ["URL analysis suggests " ++ categoryStr urlScore.category,
          "URL patterns: " ++ strJoin ", " urlScore.matchedPatterns]⟩
      else
        ⟨.tools, JsNum.q 4 10,
         ["Uncertain categorization, defaulting to tools"] ++
         (if urlScore.matchedPatterns.length > 0 then
            ["Mixed URL patterns: " ++ strJoin ", " urlScore.matchedPatterns] else []) ++
         (if cs.indicators.length > 0 then
            ["Mixed content indicators: " ++ strJoin ", " (cs.indicators.take 3)] else [])⟩

/-- `DocumentationCategorizer.categorize`.  The `content ? ... : null` test
makes the empty string behave like an absent content argument. -/
def categorize (url : String) (content : Option String) : CategorizationResult :=
  let urlScore := analyzeUrl url
  let contentScore :=
    match content with
    | some c => if c ≠ "" then some (analyzeContent c) else none
    | none => none
  combineScores urlScore contentScore

/-! ### URL model and `src/utils/url.ts`

A parsed URL (the result of Node's WHATWG `new URL(...)`) is modelled
structurally: scheme, host, the path as its list of segments (a trailing
slash appears as a final empty segment, as in the WHATWG path
representation), the search parameters as an ordered key/value list, and an
optional fragment.  Credentials and ports play no role in the embedded code
and are folded into `host`.  Setting the pathname to the empty string yields
the empty path (serialized without a slash), matching the behaviour pinned
by the repository's own unit tests
(`normalizeUrl('https://example.com/') = 'https://example.com'`). -/

structure UrlParts where
  scheme : String
  host : String
  path : List String
  query : List (String × String)
  fragment : Option String
deriving DecidableEq, Repr

/-- The `pathname` string denoted by a segment list. -/
def pathnameOf (p : List String) : String :=
  String.join (p.map (fun seg => "/" ++ seg))

/-- Effect of `parsed.pathname = parsed.pathname.replace(/\/$/, '')` on the
segment list: one trailing slash, i.e. one final empty segment, is removed. -/
def trimTrailingSlash (p : List String) : List String :=
  if p.getLast? = some "" then p.dropLast else p

/-- Code-unit comparison of two character lists (the comparison
`searchParams.sort()` performs on parameter names; for the ASCII names in
scope this is exactly UTF-16 code-unit order). -/
def charListLe : List Char → List Char → Bool
  | [], _ => true
  | _ :: _, [] => false
  | a :: as, b :: bs =>
      if a.toNat < b.toNat then true
      else if b.toNat < a.toNat then false
      else charListLe as bs

/-- Code-unit comparison of parameter names. -/
def nameLe (a b : String) : Bool := charListLe a.data b.data

/-- Stable insertion of a search parameter before the first entry with a
strictly greater name. -/
def insertParam (x : String × String) : List (String × String) → List (String × String)
  | [] => [x]
  | y :: ys => if nameLe x.1 y.1 then x :: y :: ys else y :: insertParam x ys

/-- `searchParams.sort()`: a stable sort by parameter name (relative order of
equal names is preserved). -/
def sortParams : List (String × String) → List (String × String)
  | [] => []
  | x :: xs => insertParam x (sortParams xs)

/-- Serialization of the search parameter list (percent-encoding of names
and values is abstracted away; it affects none of the statements proved). -/
def serializeQuery : List (String × String) → String
  | [] => ""
  | q => "?" ++ strJoin "&" (q.map (fun kv => kv.1 ++ "=" ++ kv.2))

/-- The WHATWG serialization of a parsed URL. -/
def serializeUrl (u : UrlParts) : String :=
  u.scheme ++ "://" ++ u.host ++ pathnameOf u.path ++ serializeQuery u.query ++
    (match u.fragment with
     | none => ""
     | some f => "#" ++ f)

/-- The three mutation steps of `normalizeUrl` on the parsed URL: trailing
slash trimmed, fragment cleared (`parsed.hash = ''` sets the fragment to
null), query parameters stably sorted by name. -/
def normalizeParsed (u : UrlParts) : UrlParts :=
  { u with path := trimTrailingSlash u.path, query := sortParams u.query, fragment := none }

/-! ### Environment of external collaborators

Everything the crawler consumes from outside its own code: Node's URL
parser, the JS `RegExp` engine applied to user-supplied glob patterns, the
Playwright renderer combined with the HTML extractor (`ContentParser`,
declared out of scope by the spec), the filesystem, the loaded
configuration, and the clock.  Rendering and extraction are deterministic
per URL for the duration of a session, hence functions of the URL. -/

structure Env where
  /-- `new URL(s)`: `none` models a thrown `TypeError`. -/
  parseUrl : String → Option UrlParts
  /-- `new RegExp(re).test(s)` for user-supplied (glob-compiled) patterns. -/
  regexTest : String → String → Bool
  /-- Whether `page.goto(url)` succeeds. -/
  renderOk : String → Bool
  /-- Message of the navigation error when `page.goto` fails. -/
  navError : String → String
  /-- `parser.extractTitle` of the rendered page. -/
  pageTitle : String → String
  /-- `parser.extractContent` of the rendered page. -/
  pageContent : String → String
  /-- `parser.extractLinks` of the rendered page. -/
  pageLinks : String → List String
  /-- Whether `writeFileContent(path, ...)` succeeds. -/
  writeOk : String → Bool
  /-- `fileExists(path)`. -/
  fileExists : String → Bool
  /-- `config.docsBasePath`. -/
  docsBasePath : String
  /-- `config.crawler.defaultMaxDepth` (validated to be ≥ 1 by `validateConfig`). -/
  defaultMaxDepth : Nat
  /-- `config.crawler.defaultRateLimit` (timing only, no observable effect here). -/
  defaultRateLimit : Nat
  /-- `new Date().toISOString()` at the time of the write. -/
  nowIso : String

/-- `normalizeUrl` (string level): parse, normalize, reserialize; a parse
failure returns the input unchanged. -/
def normalizeUrl (env : Env) (url : String) : String :=
  match env.parseUrl url with
  | some p => serializeUrl (normalizeParsed p)
  | none => url

/-- `isSameDomain`: hostname equality of the two parses, `false` on any
parse failure. -/
def isSameDomain (env : Env) (url1 url2 : String) : Bool :=
  match env.parseUrl url1, env.parseUrl url2 with
  | some p1, some p2 => p1.host == p2.host
  | _, _ => false

/-- `Array.prototype.indexOf` under the guard that the element is present. -/
def listIndexOf (a : String) : List String → Nat
  | [] => 0
  | x :: t => if x = a then 0 else listIndexOf a t + 1

/-- `extractDomainName`: strip one common hostname prefix and one common
suffix, with the two documentation-path special cases; early returns are
flattened into an if-chain. -/
def extractDomainName (env : Env) (url : String) : String :=
  match env.parseUrl url with
  | none => "unknown"
  | some p =>
      let hostname := p.host
      let c1 := if strStartsWith hostname "www." then strDrop hostname 4
                else if strStartsWith hostname "docs." then strDrop hostname 5
                else if strStartsWith hostname "api." then strDrop hostname 4
                else if strStartsWith hostname "developer." then strDrop hostname 10
                else if strStartsWith hostname "developers." then strDrop hostname 11
                else hostname
      let cleanHostname :=
        if strEndsWith c1 ".com" then strDropRight c1 4
        else if strEndsWith c1 ".org" then strDropRight c1 4
        else if strEndsWith c1 ".io" then strDropRight c1 3
        else if strEndsWith c1 ".dev" then strDropRight c1 4
        else if strEndsWith c1 ".net" then strDropRight c1 4
        else if strEndsWith c1 ".edu" then strDropRight c1 4
        else c1
      let pathParts := p.path.filter (fun seg => seg ≠ "")
      if pathParts.contains "documentation" ∧ pathParts.length > 1 ∧
          listIndexOf "documentation" pathParts < pathParts.length - 1 then
        pathParts.getD (listIndexOf "documentation" pathParts + 1) ""
      else if pathParts.contains "docs" ∧ pathParts.length > 1 ∧
          listIndexOf "docs" pathParts > 0 then
        pathParts.getD (listIndexOf "docs" pathParts - 1) ""
      else cleanHostname

/-- `urlToFilename`: strip one leading and one trailing slash, slashes to
underscores, default `index`, ensure `.md`, sanitize. -/
def urlToFilename (env : Env) (url : String) : String :=
  match env.parseUrl url with
  | none => "unknown.md"
  | some p =>
      let f0 := pathnameOf p.path
      let f1 := if strStartsWith f0 "/" then strDrop f0 1 else f0
      let f2 := if strEndsWith f1 "/" then strDropRight f1 1 else f1
      let f3 := strReplaceChar f2 '/' "_"
      let f4 := if f3 = "" then "index" else f3
      let f5 := if strEndsWith f4 ".md" then f4 else f4 ++ ".md"
      ⟨f5.data.map (fun c =>
        if c.isAlphanum || c = '.' || c = '_' || c = '-' then c else '_')⟩

/-- The glob-to-regex source transformation of `matchesPatterns`. -/
def globToRegex (pattern : String) : String :=
  strReplaceChar (strReplaceChar (strReplaceChar (strReplaceChar pattern
    '*' ".*") '?' ".") '[' "\\[") ']' "\\]"

/-- `matchesPatterns`: true iff some pattern's compiled regex matches.  The
`RegExp` engine itself is the environment's `regexTest`; on the empty
pattern list the loop body never runs and the result is `false` regardless
of the engine. -/
def matchesPatterns (env : Env) (url : String) (patterns : List String) : Bool :=
  patterns.any (fun p => env.regexTest (globToRegex p) url)

/-- `getDocumentationPath` (`path.join(basePath, category, name)`). -/
def getDocumentationPath (env : Env) (category name : String) : String :=
  env.docsBasePath ++ "/" ++ category ++ "/" ++ name

/-! ### Crawler (`DocumentationCrawler`)

The crawler's per-session instance state (`visited`, `discovered`,
`errors`, `savedFiles`) becomes the `Session` value below.  Three ghost
fields instrument the model without affecting it: `procTrace` records every
invocation of the per-page processing step (the unit of work submitted to
the rate-limited queue), `harvestTrace` records every link-harvesting fetch,
and `written` records every file written through Storage.  The PQueue runs
with `concurrency: 1` and every call is awaited, so the traversal is the
sequential recursion modelled here; the rate limiter and the `onProgress`
callback only affect timing and logging. -/

structure CrawlOptions where
  url : String
  max_depth : Option Nat
  force_refresh : Bool
  rate_limit : Option Nat
  include_patterns : Option (List String)
  exclude_patterns : Option (List String)
deriving DecidableEq, Repr

structure CrawlStatus where
  discovered : Nat
  processed : Nat
  saved : Nat
  errors : Nat
  currentUrl : Option String
deriving DecidableEq, Repr

structure CrawlResult where
  success : Bool
  stats : CrawlStatus
  savedFiles : List String
  errors : List String
  category : Category
  name : String
deriving DecidableEq, Repr

/-- Ghost record of one processing-step invocation. -/
structure PEvent where
  url : String
  norm : String
  depth : Nat
deriving DecidableEq, Repr

structure Session where
  visited : List String
  discovered : List String
  errors : List String
  savedFiles : List String
  procTrace : List PEvent
  harvestTrace : List (String × Nat)
  written : List (String × String)
deriving DecidableEq, Repr

def initSession : Session := ⟨[], [], [], [], [], [], []⟩

/-- `this.visited.add(normalizedUrl)` together with the ghost record of the
processing-step invocation that immediately follows it. -/
def markVisited (s : Session) (url norm : String) (depth : Nat) : Session :=
  { s with visited := s.visited ++ [norm],
           procTrace := s.procTrace ++ [PEvent.mk url norm depth] }

/-- `this.errors.push(errorMessage)` with the source's message format. -/
def recordError (s : Session) (url e : String) : Session :=
  { s with errors := s.errors ++ ["Failed to process " ++ url ++ ": " ++ e] }

/-- `this.savedFiles.push(filePath)` together with the ghost record of the
Storage write. -/
def recordSaved (s : Session) (filePath fileContent : String) : Session :=
  { s with savedFiles := s.savedFiles ++ [filePath],
           written := s.written ++ [(filePath, fileContent)] }

/-- Ghost record of the link-harvesting fetch over the same URL. -/
def recordHarvest (s : Session) (url : String) (depth : Nat) : Session :=
  { s with harvestTrace := s.harvestTrace ++ [(url, depth)] }

/-- `this.discovered.add(normalizedLink)`. -/
def addDiscovered (s : Session) (normalizedLink : String) : Session :=
  { s with discovered := s.discovered ++ [normalizedLink] }

/-- `processPage`: render, extract, reject whitespace-only content, build the
frontmatter (note the source joins the lines with the literal two-character
sequence `\n` — `.join('\\n')` in the TypeScript), write.  Returns the file
path and the written content, or the thrown error's message. -/
def processPage (env : Env) (category name url : String) :
    Except String (String × String) :=
  if !env.renderOk url then Except.error (env.navError url)
  else
    let title := env.pageTitle url
    let content := env.pageContent url
    if strTrim content = "" then Except.error "No content extracted"
    else
      let filename := urlToFilename env url
      let docPath := getDocumentationPath env category name
      let filePath := docPath ++ "/" ++ filename
      let frontmatter := strJoin "\\n"
        ["---",
         "title: \"" ++ strReplaceChar title '"' "\\\"" ++ "\"",
         "url: \"" ++ url ++ "\"",
         "date: \"" ++ env.nowIso ++ "\"",
         "category: \"" ++ category ++ "\"",
         "tool: \"" ++ name ++ "\"",
         "---",
         ""]
      let finalContent := frontmatter ++ content
      if env.writeOk filePath then Except.ok (filePath, finalContent)
      else Except.error "write failed"

/-- `extractLinksFromPage`: its own try/catch returns `[]` on failure. -/
def extractLinksFromPage (env : Env) (url : String) : List String :=
  if env.renderOk url then env.pageLinks url else []

/-- The `include_patterns` guard of `crawlRecursive` (note `[]` is truthy in
JS, so an empty list still triggers the check). -/
def includeSkip (env : Env) (opts : CrawlOptions) (url : String) : Bool :=
  match opts.include_patterns with
  | some ps => !matchesPatterns env url ps
  | none => false

/-- The `exclude_patterns` guard of `crawlRecursive`. -/
def excludeSkip (env : Env) (opts : CrawlOptions) (url : String) : Bool :=
  match opts.exclude_patterns with
  | some ps => matchesPatterns env url ps
  | none => false

/-- The `for (const link of links)` body of `crawlRecursive`, with `visit`
the recursive call at `depth + 1`. -/
def crawlLinks (env : Env) (visit : String → Session → Session) :
    List String → Session → Session
  | [], s => s
  | link :: rest, s =>
      crawlLinks env visit rest
        (if normalizeUrl env link ∈ s.discovered then s
         else visit link (addDiscovered s (normalizeUrl env link)))

/-- `crawlRecursive`.  The recursion of the source is bounded: a recursive
call happens only when `depth < maxDepth`, so along every real execution the
fuel `maxDepth + 1 - depth` never reaches the artificial `0` case; the
top-level entry supplies `maxDepth + 1`. -/
def crawlRec (env : Env) (opts : CrawlOptions) (category name : String) (maxDepth : Nat) :
    Nat → String → Nat → Session → Session
  | 0, _, _, s => s
  | Nat.succ fuel, url, depth, s =>
      let normalizedUrl := normalizeUrl env url
      if normalizedUrl ∈ s.visited ∨ depth > maxDepth then s
      else if includeSkip env opts url then s
      else if excludeSkip env opts url then s
      else if !isSameDomain env url opts.url then s
      else
        let s1 := markVisited s url normalizedUrl depth
        match processPage env category name url with
        | Except.error e => recordError s1 url e
        | Except.ok (filePath, fileContent) =>
            let s2 := recordSaved s1 filePath fileContent
            if depth < maxDepth then
              crawlLinks env
                (fun link s' => crawlRec env opts category name maxDepth fuel link (depth + 1) s')
                (extractLinksFromPage env url) (recordHarvest s2 url depth)
            else s2

/-- The subset of `SiteConfig` the crawler reads. -/
structure SiteConfig where
  name : String
  category : Category
  max_depth : Option Nat
deriving DecidableEq, Repr

/-- `ContentParser.getSiteConfig` in the current source always returns
`null` (site-specific configs are deprecated; categorization is dynamic). -/
def getSiteConfig (_url : String) : Option SiteConfig := none

/-- `DocumentationCrawler.inferSiteConfig`. -/
def inferSiteConfig (env : Env) (url : String) : SiteConfig :=
  ⟨extractDomainName env url, Category.tools, some env.defaultMaxDepth⟩

/-- JS `a || b` for `a : number | undefined`: `0` is falsy. -/
def jsOrNat : Option Nat → Nat → Nat
  | some n, d => if n = 0 then d else n
  | none, d => d

/-- `fetchPageContent`: its own try/catch returns `''` on failure. -/
def fetchPageContent (env : Env) (url : String) : String :=
  if env.renderOk url then env.pageContent url else ""

/-- The homepage categorization performed at the top of `crawl`. -/
def crawlCategorization (env : Env) (opts : CrawlOptions) : CategorizationResult :=
  categorize opts.url (some (fetchPageContent env opts.url))

/-- `this.parser.getSiteConfig(options.url) || await this.inferSiteConfig(options.url)`. -/
def crawlSiteConfig (env : Env) (opts : CrawlOptions) : SiteConfig :=
  (getSiteConfig opts.url).getD (inferSiteConfig env opts.url)

/-- The existence short-circuit test of `crawl`: no forced refresh and a
pre-existing `index.md` at the resolved documentation path. -/
def shortCircuits (env : Env) (opts : CrawlOptions) : Bool :=
  !opts.force_refresh &&
    env.fileExists (getDocumentationPath env
      (categoryStr (crawlCategorization env opts).category)
      (crawlSiteConfig env opts).name ++ "/index.md")

/-- `options.max_depth || siteConfig.max_depth || appConfig.crawler.defaultMaxDepth`
(JS `||`: an explicit `0` falls through to the defaults). -/
def effMaxDepth (env : Env) (opts : CrawlOptions) : Nat :=
  jsOrNat opts.max_depth (jsOrNat (crawlSiteConfig env opts).max_depth env.defaultMaxDepth)

/-- `DocumentationCrawler.crawl` (renderer initialization assumed to
succeed — its failure propagates out of `crawl` and produces no result).
Returns the `CrawlResult` together with the final session. -/
def crawl (env : Env) (opts : CrawlOptions) : CrawlResult × Session :=
  let category := (crawlCategorization env opts).category
  let name := (crawlSiteConfig env opts).name
  if shortCircuits env opts then
    (⟨true, ⟨0, 0, 0, 0, none⟩, [],
      ["Documentation already exists. Use force_refresh to update."], category, name⟩,
     initSession)
  else
    let s := crawlRec env opts (categoryStr category) name (effMaxDepth env opts)
      (effMaxDepth env opts + 1) opts.url 0 initSession
    (⟨s.errors.isEmpty,
      ⟨s.discovered.length, s.visited.length, s.savedFiles.length, s.errors.length, none⟩,
      s.savedFiles, s.errors, category, name⟩, s)

/-! ### Invariants and difference relations used by the statements -/

/-- Name comparison underlying `searchParams.sort()`. -/
def keyLe (a b : String × String) : Prop := nameLe a.1 b.1 = true

/-- Strict name comparison. -/
def keyLt (a b : String × String) : Prop := nameLe a.1 b.1 = true ∧ a.1 ≠ b.1

/-- Two segment lists whose pathnames differ only in that one appends a
single trailing slash to the other's pathname, the latter not itself ending
in a slash (or are identical). -/
def slashApart (p q : List String) : Prop :=
  p = q ∨ (q = p ++ [""] ∧ p.getLast? ≠ some "") ∨ (p = q ++ [""] ∧ q.getLast? ≠ some "")

/-- The normalized URL is the sole identity for dedup: processing events are
recorded exactly once per entry of `visited`, in order, and `visited` never
repeats. -/
def ProcInv (s : Session) : Prop :=
  s.procTrace.map PEvent.norm = s.visited ∧ s.visited.Nodup

/-- Every recorded fetch (both the processing fetch and the link-harvesting
fetch) is for a URL on the seed's host. -/
def DomInv (env : Env) (opts : CrawlOptions) (s : Session) : Prop :=
  (∀ e ∈ s.procTrace, isSameDomain env e.url opts.url = true) ∧
  (∀ h ∈ s.harvestTrace, isSameDomain env h.1 opts.url = true)

/-! ### Concrete environments for witnesses and counterexamples

Each witness environment supplies a `parseUrl` oracle whose answers are the
WHATWG parses of the finitely many URL strings occurring in that scenario. -/

/-- Parses for a site `x.test` whose seed page `/a` links to `/l1`..`/l5`. -/
def parseXTest : String → Option UrlParts := fun u =>
  if u = "https://x.test/a" then some ⟨"https", "x.test", ["a"], [], none⟩
  else if u = "https://x.test/l1" then some ⟨"https", "x.test", ["l1"], [], none⟩
  else if u = "https://x.test/l2" then some ⟨"https", "x.test", ["l2"], [], none⟩
  else if u = "https://x.test/l3" then some ⟨"https", "x.test", ["l3"], [], none⟩
  else if u = "https://x.test/l4" then some ⟨"https", "x.test", ["l4"], [], none⟩
  else if u = "https://x.test/l5" then some ⟨"https", "x.test", ["l5"], [], none⟩
  else none

/-- A well-behaved site: every page renders, has title `T` and content
`hello`, the seed links to five same-host pages, no file pre-exists. -/
def envA : Env :=
  { parseUrl := parseXTest
    regexTest := fun _ _ => false
    renderOk := fun _ => true
    navError := fun _ => "navigation failed"
    pageTitle := fun _ => "T"
    pageContent := fun _ => "hello"
    pageLinks := fun u => if u = "https://x.test/a" then
        ["https://x.test/l1", "https://x.test/l2", "https://x.test/l3",
         "https://x.test/l4", "https://x.test/l5"] else []
    writeOk := fun _ => true
    fileExists := fun _ => false
    docsBasePath := "/docs"
    defaultMaxDepth := 3
    defaultRateLimit := 2
    nowIso := "2025-01-01T00:00:00.000Z" }

/-- `crawl({url: "https://x.test/a", max_depth: 0})`. -/
def optsDepth0 : CrawlOptions := ⟨"https://x.test/a", some 0, false, none, none, none⟩

/-- Plain options for the same seed. -/
def optsPlain : CrawlOptions := ⟨"https://x.test/a", none, false, none, none, none⟩

/-- Options with `include_patterns: []`. -/
def optsEmptyInclude : CrawlOptions := ⟨"https://x.test/a", none, false, none, some [], none⟩

/-- Like `envA` but every `fileExists` probe answers true (a pre-existing
index artifact). -/
def envExists : Env := { envA with fileExists := fun _ => true }

/-- Parses for a site `y.test`: seed `/s` links to `/b` (whitespace-only
content) and `/g` (good content). -/
def parseYTest : String → Option UrlParts := fun u =>
  if u = "https://y.test/s" then some ⟨"https", "y.test", ["s"], [], none⟩
  else if u = "https://y.test/b" then some ⟨"https", "y.test", ["b"], [], none⟩
  else if u = "https://y.test/g" then some ⟨"https", "y.test", ["g"], [], none⟩
  else none

/-- The `y.test` environment: the page `/b` renders to whitespace only. -/
def envB : Env :=
  { envA with
    parseUrl := parseYTest
    pageContent := fun u => if u = "https://y.test/b" then " \n\t " else "ok"
    pageLinks := fun u => if u = "https://y.test/s" then
        ["https://y.test/b", "https://y.test/g"] else [] }

/-- Options for the `y.test` seed. -/
def optsB : CrawlOptions := ⟨"https://y.test/s", none, false, none, none, none⟩

/-- Parses for the normalization scenarios on `q.test`. -/
def parseQTest : String → Option UrlParts := fun u =>
  if u = "https://q.test/p?a=1&a=2" then
    some ⟨"https", "q.test", ["p"], [("a", "1"), ("a", "2")], none⟩
  else if u = "https://q.test/p?a=2&a=1" then
    some ⟨"https", "q.test", ["p"], [("a", "2"), ("a", "1")], none⟩
  else if u = "https://q.test/a/" then some ⟨"https", "q.test", ["a", ""], [], none⟩
  else if u = "https://q.test/a//" then some ⟨"https", "q.test", ["a", "", ""], [], none⟩
  else if u = "https://q.test/p?b=2&a=1" then
    some ⟨"https", "q.test", ["p"], [("b", "2"), ("a", "1")], none⟩
  else if u = "https://q.test/p/?a=1&b=2#sec" then
    some ⟨"https", "q.test", ["p", ""], [("a", "1"), ("b", "2")], some "sec"⟩
  else none

/-- Environment for the normalization scenarios. -/
def envQ : Env := { envA with parseUrl := parseQTest }

/-- The exact content `processPage` writes for the seed page of `envA`: the
metadata block is glued with the literal two-character sequence backslash-n
and runs straight into the body. -/
def c3Content : String :=
  "---\\ntitle: \"T\"\\nurl: \"https://x.test/a\"\\ndate: \"2025-01-01T00:00:00.000Z\"\\ncategory: \"tools\"\\ntool: \"x.test\"\\n---\\nhello"

/-- A session in which the seed of `envA` has already been visited. -/
def sessionSeedVisited : Session :=
  markVisited initSession "https://x.test/a" (normalizeUrl envA "https://x.test/a") 0

/-! ### Proof section -/

/-! #### `JsNum` value semantics -/

theorem JsNum.val_q (n : Int) (d : Nat) : (q n d).val = (n : ℚ) / (d : ℚ) := rfl

theorem JsNum.wf_add {a b : JsNum} (ha : a.Wf) (hb : b.Wf) : (add a b).Wf :=
  Nat.mul_pos ha hb

theorem JsNum.wf_mul {a b : JsNum} (ha : a.Wf) (hb : b.Wf) : (mul a b).Wf :=
  Nat.mul_pos ha hb

theorem JsNum.wf_jmin {a b : JsNum} (ha : a.Wf) (hb : b.Wf) : (jmin a b).Wf := by
  unfold jmin; split <;> assumption

theorem JsNum.wf_jmax {a b : JsNum} (ha : a.Wf) (hb : b.Wf) : (jmax a b).Wf := by
  unfold jmax; split <;> assumption

theorem JsNum.val_add {a b : JsNum} (ha : a.Wf) (hb : b.Wf) :
    (add a b).val = a.val + b.val := by
  have ha' : ((a.den : ℚ)) ≠ 0 := by exact_mod_cast Nat.pos_iff_ne_zero.mp ha
  have hb' : ((b.den : ℚ)) ≠ 0 := by exact_mod_cast Nat.pos_iff_ne_zero.mp hb
  unfold add val
  push_cast
  rw [div_add_div _ _ ha' hb']
  ring_nf

theorem JsNum.val_mul (a b : JsNum) : (mul a b).val = a.val * b.val := by
  unfold mul val
  push_cast
  rw [div_mul_div_comm]

theorem JsNum.blt_iff {a b : JsNum} (ha : a.Wf) (hb : b.Wf) :
    blt a b = true ↔ a.val < b.val := by
  have ha' : (0 : ℚ) < (a.den : ℚ) := by exact_mod_cast ha
  have hb' : (0 : ℚ) < (b.den : ℚ) := by exact_mod_cast hb
  unfold blt val
  rw [div_lt_div_iff₀ ha' hb', decide_eq_true_eq]
  constructor
  · intro h; exact_mod_cast h
  · intro h; exact_mod_cast h

theorem JsNum.val_jmin {a b : JsNum} (ha : a.Wf) (hb : b.Wf) :
    (jmin a b).val = min a.val b.val := by
  unfold jmin
  by_cases h : blt b a = true
  · rw [if_pos h]
    exact (min_eq_right (le_of_lt ((blt_iff hb ha).mp h))).symm
  · rw [if_neg h]
    exact (min_eq_left (le_of_not_lt (fun hlt => h ((blt_iff hb ha).mpr hlt)))).symm

theorem JsNum.val_jmax {a b : JsNum} (ha : a.Wf) (hb : b.Wf) :
    (jmax a b).val = max a.val b.val := by
  unfold jmax
  by_cases h : blt a b = true
  · rw [if_pos h]
    exact (max_eq_right (le_of_lt ((blt_iff ha hb).mp h))).symm
  · rw [if_neg h]
    exact (max_eq_left (le_of_not_lt (fun hlt => h ((blt_iff ha hb).mpr hlt)))).symm

/-! ### Lemmas about `sortParams` and `trimTrailingSlash` -/



theorem charListLe_total : ∀ a b : List Char, charListLe a b = true ∨ charListLe b a = true := by
  intro a
  induction a with
  | nil => intro b; exact Or.inl rfl
  | cons x xs ih =>
      intro b
      cases b with
      | nil => exact Or.inr rfl
      | cons y ys =>
          by_cases h1 : x.toNat < y.toNat
          · left; simp [charListLe, h1]
          · by_cases h2 : y.toNat < x.toNat
            · right; simp [charListLe, h1, h2]
            · rcases ih ys with h | h
              · left; simp [charListLe, h1, h2, h]
              · right; simp [charListLe, h1, h2, h]

theorem charListLe_trans :
    ∀ a b c : List Char, charListLe a b = true → charListLe b c = true →
      charListLe a c = true := by
  intro a
  induction a with
  | nil => intro b c _ _; rfl
  | cons x xs ih =>
      intro b c hab hbc
      match b, c with
      | [], _ => exact absurd hab (by simp [charListLe])
      | y :: ys, [] => exact absurd hbc (by simp [charListLe])
      | y :: ys, z :: zs =>
          simp only [charListLe] at hab hbc ⊢
          by_cases h1 : x.toNat < y.toNat
          · by_cases h2 : y.toNat < z.toNat
            · rw [if_pos (by omega)]
            · rw [if_neg h2] at hbc
              by_cases h3 : z.toNat < y.toNat
              · rw [if_pos h3] at hbc; exact absurd hbc (by simp)
              · rw [if_pos (by omega)]
          · rw [if_neg h1] at hab
            by_cases h4 : y.toNat < x.toNat
            · rw [if_pos h4] at hab; exact absurd hab (by simp)
            · rw [if_neg h4] at hab
              by_cases h2 : y.toNat < z.toNat
              · rw [if_pos (by omega)]
              · rw [if_neg h2] at hbc
                by_cases h3 : z.toNat < y.toNat
                · rw [if_pos h3] at hbc; exact absurd hbc (by simp)
                · rw [if_neg h3] at hbc
                  rw [if_neg (by omega), if_neg (by omega)]
                  exact ih ys zs hab hbc

theorem charListLe_antisymm :
    ∀ a b : List Char, charListLe a b = true → charListLe b a = true → a = b := by
  intro a
  induction a with
  | nil =>
      intro b _ hba
      cases b with
      | nil => rfl
      | cons y ys => exact absurd hba (by simp [charListLe])
  | cons x xs ih =>
      intro b hab hba
      cases b with
      | nil => exact absurd hab (by simp [charListLe])
      | cons y ys =>
          simp only [charListLe] at hab hba
          by_cases h1 : x.toNat < y.toNat
          · rw [if_neg (by omega), if_pos h1] at hba
            exact absurd hba (by simp)
          · by_cases h2 : y.toNat < x.toNat
            · rw [if_neg h1, if_pos h2] at hab
              exact absurd hab (by simp)
            · rw [if_neg h1, if_neg h2] at hab
              rw [if_neg h2, if_neg h1] at hba
              have hx : x = y := by
                have hn : x.toNat = y.toNat := by omega
                apply Char.eq_of_val_eq
                apply UInt32.ext
                exact hn
              rw [hx, ih ys hab hba]

theorem nameLe_total (a b : String) : nameLe a b = true ∨ nameLe b a = true :=
  charListLe_total a.data b.data

theorem nameLe_trans {a b c : String} (hab : nameLe a b = true) (hbc : nameLe b c = true) :
    nameLe a c = true :=
  charListLe_trans a.data b.data c.data hab hbc

theorem nameLe_antisymm {a b : String} (hab : nameLe a b = true) (hba : nameLe b a = true) :
    a = b := by
  cases a with
  | mk da =>
      cases b with
      | mk db => exact congrArg String.mk (charListLe_antisymm da db hab hba)

theorem insertParam_perm (x : String × String) (l : List (String × String)) :
    List.Perm (insertParam x l) (x :: l) := by
  induction l with
  | nil => simp [insertParam]
  | cons y ys ih =>
      unfold insertParam
      split
      · exact List.Perm.refl _
      · exact (List.Perm.cons y ih).trans (List.Perm.swap x y ys)

theorem sortParams_perm (l : List (String × String)) :
    List.Perm (sortParams l) l := by
  induction l with
  | nil => exact List.Perm.refl _
  | cons x xs ih =>
      exact (insertParam_perm x (sortParams xs)).trans (List.Perm.cons x ih)

theorem insertParam_sorted {x : String × String} {l : List (String × String)}
    (h : List.Sorted keyLe l) : List.Sorted keyLe (insertParam x l) := by
  induction l with
  | nil => simp [insertParam, List.Sorted]
  | cons y ys ih =>
      unfold insertParam
      split
      · rename_i hxy
        refine List.sorted_cons.mpr ⟨?_, h⟩
        intro b hb
        rcases List.mem_cons.mp hb with hb | hb
        · subst hb; exact hxy
        · exact nameLe_trans hxy ((List.sorted_cons.mp h).1 b hb)
      · rename_i hxy
        have hyx : keyLe y x := by
          rcases nameLe_total x.1 y.1 with ht | ht
          · exact absurd ht hxy
          · exact ht
        refine List.sorted_cons.mpr ⟨?_, ih (List.sorted_cons.mp h).2⟩
        intro b hb
        rcases List.mem_cons.mp ((insertParam_perm x ys).mem_iff.mp hb) with hb | hb
        · subst hb; exact hyx
        · exact (List.sorted_cons.mp h).1 b hb

theorem sortParams_sorted (l : List (String × String)) :
    List.Sorted keyLe (sortParams l) := by
  induction l with
  | nil => simp [sortParams, List.Sorted]
  | cons x xs ih => exact insertParam_sorted ih

theorem sortParams_eq_of_perm {l1 l2 : List (String × String)}
    (hp : List.Perm l1 l2) (hn : (l1.map Prod.fst).Nodup) :
    sortParams l1 = sortParams l2 := by
  haveI : IsAntisymm (String × String) keyLt :=
    ⟨fun a b hab hba => absurd (nameLe_antisymm hab.1 hba.1) hab.2⟩
  have hperm : List.Perm (sortParams l1) (sortParams l2) :=
    (sortParams_perm l1).trans (hp.trans (sortParams_perm l2).symm)
  have strict : ∀ m : List (String × String), (m.map Prod.fst).Nodup →
      List.Sorted keyLe m → List.Pairwise keyLt m := by
    intro m hm hs
    have hne : m.Pairwise (fun a b => a.1 ≠ b.1) := List.pairwise_map.mp hm
    exact (hs.and hne).imp (fun h => ⟨h.1, h.2⟩)
  have hn1 : ((sortParams l1).map Prod.fst).Nodup :=
    (((sortParams_perm l1).map Prod.fst).nodup_iff).mpr hn
  have hn2' : (l2.map Prod.fst).Nodup := ((hp.map Prod.fst).nodup_iff).mp hn
  have hn2 : ((sortParams l2).map Prod.fst).Nodup :=
    (((sortParams_perm l2).map Prod.fst).nodup_iff).mpr hn2'
  exact List.eq_of_perm_of_sorted hperm
    (strict _ hn1 (sortParams_sorted l1)) (strict _ hn2 (sortParams_sorted l2))

theorem trimTrailingSlash_concat (p : List String) :
    trimTrailingSlash (p ++ [""]) = p := by
  unfold trimTrailingSlash
  rw [if_pos (by rw [List.getLast?_concat]), List.dropLast_concat]

theorem trimTrailingSlash_id {p : List String} (h : p.getLast? ≠ some "") :
    trimTrailingSlash p = p := by
  unfold trimTrailingSlash
  rw [if_neg h]


theorem trimTrailingSlash_eq_of_slashApart {p q : List String} (h : slashApart p q) :
    trimTrailingSlash p = trimTrailingSlash q := by
  rcases h with h | ⟨hq, hp⟩ | ⟨hp, hq⟩
  · rw [h]
  · rw [hq, trimTrailingSlash_concat, trimTrailingSlash_id hp]
  · rw [hp, trimTrailingSlash_concat, trimTrailingSlash_id hq]

/-! ### Traversal invariants -/

theorem nodup_snoc {l : List String} {a : String} (h : l.Nodup) (ha : a ∉ l) :
    (l ++ [a]).Nodup := by
  rw [List.nodup_append]
  exact ⟨h, List.nodup_singleton a, fun x hx hxa => ha ((List.mem_singleton.mp hxa) ▸ hx)⟩

/-- Preservation of a session predicate along the link loop, given that the
per-link visit and the `discovered` bookkeeping preserve it. -/
theorem crawlLinks_preserve (env : Env) (visit : String → Session → Session)
    (P : Session → Prop)
    (hv : ∀ l s, P s → P (visit l s))
    (hd : ∀ s nl, P s → P { s with discovered := s.discovered ++ [nl] }) :
    ∀ links s, P s → P (crawlLinks env visit links s) := by
  intro links
  induction links with
  | nil => intro s hs; exact hs
  | cons link rest ih =>
      intro s hs
      show P (crawlLinks env visit rest _)
      apply ih
      split
      · exact hs
      · exact hv _ _ (hd _ _ hs)


theorem procInv_markVisited {s : Session} (hs : ProcInv s) {url norm : String} {depth : Nat}
    (hmem : norm ∉ s.visited) : ProcInv (markVisited s url norm depth) := by
  refine ⟨?_, nodup_snoc hs.2 hmem⟩
  simp [markVisited, hs.1]

theorem crawlRec_procInv (env : Env) (opts : CrawlOptions) (category name : String)
    (maxDepth : Nat) :
    ∀ fuel url depth s, ProcInv s →
      ProcInv (crawlRec env opts category name maxDepth fuel url depth s) := by
  intro fuel
  induction fuel with
  | zero => intro url depth s hs; exact hs
  | succ fuel ih =>
      intro url depth s hs
      simp only [crawlRec]
      split
      · exact hs
      next h1 =>
        split
        · exact hs
        split
        · exact hs
        split
        · exact hs
        have hmem : normalizeUrl env url ∉ s.visited := fun hm => h1 (Or.inl hm)
        have hs1 : ProcInv (markVisited s url (normalizeUrl env url) depth) :=
          procInv_markVisited hs hmem
        split
        · exact hs1
        split
        · exact crawlLinks_preserve env _ ProcInv (fun l s2 hs2 => ih l (depth + 1) s2 hs2)
            (fun s2 nl hs2 => hs2) _ _ ⟨hs1.1, hs1.2⟩
        · exact hs1


theorem crawlRec_domInv (env : Env) (opts : CrawlOptions) (category name : String)
    (maxDepth : Nat) :
    ∀ fuel url depth s, DomInv env opts s →
      DomInv env opts (crawlRec env opts category name maxDepth fuel url depth s) := by
  intro fuel
  induction fuel with
  | zero => intro url depth s hs; exact hs
  | succ fuel ih =>
      intro url depth s hs
      simp only [crawlRec]
      split
      · exact hs
      split
      · exact hs
      split
      · exact hs
      split
      · exact hs
      next h4 =>
        have hdom : isSameDomain env url opts.url = true := by
          simpa using h4
        have hs1 : DomInv env opts (markVisited s url (normalizeUrl env url) depth) := by
          refine ⟨?_, hs.2⟩
          intro e he
          rcases List.mem_append.mp he with he | he
          · exact hs.1 e he
          · rw [List.mem_singleton.mp he]; exact hdom
        split
        · exact hs1
        split
        · refine crawlLinks_preserve env _ (DomInv env opts)
            (fun l s2 hs2 => ih l (depth + 1) s2 hs2) (fun s2 nl hs2 => hs2) _ _ ?_
          refine ⟨hs1.1, ?_⟩
          intro h he
          rcases List.mem_append.mp he with he | he
          · exact hs1.2 h he
          · rw [List.mem_singleton.mp he]; exact hdom
        · exact hs1

/-- A URL whose normalized form is already in `visited` is a no-op. -/
theorem crawlRec_visited_noop (env : Env) (opts : CrawlOptions) (category name : String)
    (maxDepth fuel : Nat) (url : String) (depth : Nat) (s : Session)
    (h : normalizeUrl env url ∈ s.visited) :
    crawlRec env opts category name maxDepth fuel url depth s = s := by
  cases fuel with
  | zero => rfl
  | succ fuel => simp only [crawlRec]; rw [if_pos (Or.inl h)]

/-- The final session of `crawl`: fresh when the existence check
short-circuits, otherwise the traversal result from the fresh session. -/
theorem crawl_snd (env : Env) (opts : CrawlOptions) :
    (crawl env opts).2 =
      if shortCircuits env opts then initSession
      else crawlRec env opts (categoryStr (crawlCategorization env opts).category)
        (crawlSiteConfig env opts).name (effMaxDepth env opts) (effMaxDepth env opts + 1)
        opts.url 0 initSession := by
  simp only [crawl]
  split
  · rfl
  · rfl

/-- One traversal step over a URL that passes every guard but whose
extracted content is whitespace only: the URL is visited and handed to the
processing step, exactly one error is recorded, and nothing else changes
(in particular no file is saved and no link harvest happens). -/
theorem crawlRec_empty_content (env : Env) (opts : CrawlOptions) (category name : String)
    (maxDepth fuel : Nat) (url : String) (depth : Nat) (s : Session)
    (hmem : normalizeUrl env url ∉ s.visited)
    (hdepth : depth ≤ maxDepth)
    (hinc : includeSkip env opts url = false)
    (hexc : excludeSkip env opts url = false)
    (hdom : isSameDomain env url opts.url = true)
    (hrender : env.renderOk url = true)
    (hempty : strTrim (env.pageContent url) = "") :
    crawlRec env opts category name maxDepth (fuel + 1) url depth s =
      recordError (markVisited s url (normalizeUrl env url) depth) url
        "No content extracted" := by
  have hpp : processPage env category name url = Except.error "No content extracted" := by
    unfold processPage
    rw [if_neg (by simp [hrender]), if_pos hempty]
  simp only [crawlRec]
  rw [if_neg (by push_neg; exact ⟨hmem, hdepth⟩),
      if_neg (by simp [hinc]), if_neg (by simp [hexc]), if_neg (by simp [hdom]), hpp]

/-! #### Categorizer totality -/

theorem urlConf_bounds (n : Nat) :
    (3/10 : ℚ) ≤
        (JsNum.jmin ((JsNum.q 8 10).add ((JsNum.q n 1).mul (JsNum.q 1 10)))
          (JsNum.q 95 100)).val ∧
      (JsNum.jmin ((JsNum.q 8 10).add ((JsNum.q n 1).mul (JsNum.q 1 10)))
          (JsNum.q 95 100)).val ≤ 19/20 ∧
      (JsNum.jmin ((JsNum.q 8 10).add ((JsNum.q n 1).mul (JsNum.q 1 10)))
          (JsNum.q 95 100)).Wf := by
  have hq8 : (JsNum.q 8 10).Wf := by norm_num [JsNum.Wf, JsNum.q]
  have hmulwf : ((JsNum.q n 1).mul (JsNum.q 1 10)).Wf :=
    JsNum.wf_mul (by norm_num [JsNum.Wf, JsNum.q]) (by norm_num [JsNum.Wf, JsNum.q])
  have hq95 : (JsNum.q 95 100).Wf := by norm_num [JsNum.Wf, JsNum.q]
  have hadd : ((JsNum.q 8 10).add ((JsNum.q n 1).mul (JsNum.q 1 10))).Wf :=
    JsNum.wf_add hq8 hmulwf
  have hval : ((JsNum.q 8 10).add ((JsNum.q n 1).mul (JsNum.q 1 10))).val
      = 8/10 + (n : ℚ) * (1/10) := by
    rw [JsNum.val_add hq8 hmulwf, JsNum.val_mul]
    norm_num [JsNum.val_q]
  refine ⟨?_, ?_, JsNum.wf_jmin hadd hq95⟩
  · rw [JsNum.val_jmin hadd hq95, hval]
    have hn0 : (0 : ℚ) ≤ (n : ℚ) := Nat.cast_nonneg n
    refine le_min (by nlinarith) (by norm_num [JsNum.val_q])
  · rw [JsNum.val_jmin hadd hq95]
    exact le_trans (min_le_right _ _) (by norm_num [JsNum.val_q])

theorem contentConf_bounds (n : Nat) :
    (3/10 : ℚ) ≤
        (JsNum.jmin ((JsNum.q 7 10).add ((JsNum.q n 1).mul (JsNum.q 3 100)))
          (JsNum.q 95 100)).val ∧
      (JsNum.jmin ((JsNum.q 7 10).add ((JsNum.q n 1).mul (JsNum.q 3 100)))
          (JsNum.q 95 100)).val ≤ 19/20 ∧
      (JsNum.jmin ((JsNum.q 7 10).add ((JsNum.q n 1).mul (JsNum.q 3 100)))
          (JsNum.q 95 100)).Wf := by
  have hq7 : (JsNum.q 7 10).Wf := by norm_num [JsNum.Wf, JsNum.q]
  have hmulwf : ((JsNum.q n 1).mul (JsNum.q 3 100)).Wf :=
    JsNum.wf_mul (by norm_num [JsNum.Wf, JsNum.q]) (by norm_num [JsNum.Wf, JsNum.q])
  have hq95 : (JsNum.q 95 100).Wf := by norm_num [JsNum.Wf, JsNum.q]
  have hadd : ((JsNum.q 7 10).add ((JsNum.q n 1).mul (JsNum.q 3 100))).Wf :=
    JsNum.wf_add hq7 hmulwf
  have hval : ((JsNum.q 7 10).add ((JsNum.q n 1).mul (JsNum.q 3 100))).val
      = 7/10 + (n : ℚ) * (3/100) := by
    rw [JsNum.val_add hq7 hmulwf, JsNum.val_mul]
    norm_num [JsNum.val_q]
  refine ⟨?_, ?_, JsNum.wf_jmin hadd hq95⟩
  · rw [JsNum.val_jmin hadd hq95, hval]
    have hn0 : (0 : ℚ) ≤ (n : ℚ) := Nat.cast_nonneg n
    refine le_min (by nlinarith) (by norm_num [JsNum.val_q])
  · rw [JsNum.val_jmin hadd hq95]
    exact le_trans (min_le_right _ _) (by norm_num [JsNum.val_q])

/-- Every branch of the URL decision yields a confidence in `[0.3, 0.95]`
with a positive denominator. -/
theorem urlDecision_bounds (lu : String) (mApi mTool : List String) :
    (3/10 : ℚ) ≤ (urlDecision lu mApi mTool).confidence.val ∧
      (urlDecision lu mApi mTool).confidence.val ≤ 19/20 ∧
      (urlDecision lu mApi mTool).confidence.Wf := by
  unfold urlDecision
  split_ifs
  · exact ⟨by norm_num [JsNum.val, JsNum.q], by norm_num [JsNum.val, JsNum.q],
      by norm_num [JsNum.Wf, JsNum.q]⟩
  · exact ⟨by norm_num [JsNum.val, JsNum.q], by norm_num [JsNum.val, JsNum.q],
      by norm_num [JsNum.Wf, JsNum.q]⟩
  · exact urlConf_bounds mApi.length
  · exact ⟨by norm_num [JsNum.val, JsNum.q], by norm_num [JsNum.val, JsNum.q],
      by norm_num [JsNum.Wf, JsNum.q]⟩
  · exact urlConf_bounds mTool.length
  · exact ⟨by norm_num [JsNum.val, JsNum.q], by norm_num [JsNum.val, JsNum.q],
      by norm_num [JsNum.Wf, JsNum.q]⟩
  · exact ⟨by norm_num [JsNum.val, JsNum.q], by norm_num [JsNum.val, JsNum.q],
      by norm_num [JsNum.Wf, JsNum.q]⟩

/-- Bounds for `analyzeUrl`. -/
theorem analyzeUrl_bounds (url : String) :
    (3/10 : ℚ) ≤ (analyzeUrl url).confidence.val ∧
      (analyzeUrl url).confidence.val ≤ 19/20 ∧ (analyzeUrl url).confidence.Wf :=
  urlDecision_bounds _ _ _

/-- Every branch of the content decision yields a confidence in
`[0.3, 0.95]` with a positive denominator. -/
theorem contentDecision_bounds (foundApi foundTool : List String) :
    (3/10 : ℚ) ≤ (contentDecision foundApi foundTool).confidence.val ∧
      (contentDecision foundApi foundTool).confidence.val ≤ 19/20 ∧
      (contentDecision foundApi foundTool).confidence.Wf := by
  unfold contentDecision
  split_ifs
  · exact contentConf_bounds foundApi.length
  · exact contentConf_bounds foundTool.length
  · exact ⟨by norm_num [JsNum.val, JsNum.q], by norm_num [JsNum.val, JsNum.q],
      by norm_num [JsNum.Wf, JsNum.q]⟩
  · exact ⟨by norm_num [JsNum.val, JsNum.q], by norm_num [JsNum.val, JsNum.q],
      by norm_num [JsNum.Wf, JsNum.q]⟩

/-- Bounds for `analyzeContent`. -/
theorem analyzeContent_bounds (content : String) :
    (3/10 : ℚ) ≤ (analyzeContent content).confidence.val ∧
      (analyzeContent content).confidence.val ≤ 19/20 ∧
      (analyzeContent content).confidence.Wf :=
  contentDecision_bounds _ _

/-- When the content decision picks a real category, its indicator list is
nonempty (the winning score is strictly positive). -/
theorem contentDecision_indicators (foundApi foundTool : List String) :
    (contentDecision foundApi foundTool).category ≠ Category.unknown →
      (contentDecision foundApi foundTool).indicators ≠ [] := by
  unfold contentDecision
  split_ifs with h1 h2 h3
  · intro _ hnil
    have hfa : foundApi = [] := hnil
    rw [hfa] at h1
    simp only [JsNum.blt, JsNum.mul, JsNum.q, List.length_nil, decide_eq_true_eq] at h1
    omega
  · intro _ hnil
    have hft : foundTool = [] := hnil
    rw [hft] at h2
    simp only [JsNum.blt, JsNum.mul, JsNum.q, List.length_nil, decide_eq_true_eq] at h2
    omega
  · intro h; exact absurd rfl h
  · intro h; exact absurd rfl h

/-- Indicator nonemptiness for `analyzeContent`. -/
theorem analyzeContent_indicators (content : String) :
    (analyzeContent content).category ≠ Category.unknown →
      (analyzeContent content).indicators ≠ [] :=
  contentDecision_indicators _ _

/-- Totality of `combineScores` given the analysis bounds. -/
theorem combineScores_total (us : UrlAnalysisResult) (cs : Option ContentAnalysisResult)
    (hu : (3/10 : ℚ) ≤ us.confidence.val ∧ us.confidence.val ≤ 19/20 ∧ us.confidence.Wf)
    (hc : ∀ x, cs = some x →
      ((3/10 : ℚ) ≤ x.confidence.val ∧ x.confidence.val ≤ 19/20 ∧ x.confidence.Wf) ∧
        (x.category ≠ Category.unknown → x.indicators ≠ [])) :
    0 ≤ (combineScores us cs).confidence.val ∧
      (combineScores us cs).confidence.val ≤ 1 ∧
      (combineScores us cs).reasons ≠ [] := by
  obtain ⟨hu1, hu2, huw⟩ := hu
  have h75 : (JsNum.q 75 100).Wf := by norm_num [JsNum.Wf, JsNum.q]
  rcases cs with _ | x
  · unfold combineScores
    dsimp only
    split_ifs
    · exact ⟨le_trans (by norm_num) hu1, le_trans hu2 (by norm_num), by simp⟩
    · exact ⟨by norm_num [JsNum.val, JsNum.q], by norm_num [JsNum.val, JsNum.q], by simp⟩
  · unfold combineScores
    dsimp only
    obtain ⟨⟨hc1, hc2, hcw⟩, hind⟩ := hc x rfl
    by_cases hAgree : us.category = x.category ∧ us.category ≠ Category.unknown
    · rw [if_pos hAgree]
      have hxcat : x.category ≠ Category.unknown := hAgree.1 ▸ hAgree.2
      have hxind : x.indicators ≠ [] := hind hxcat
      refine ⟨?_, ?_, ?_⟩
      · rw [JsNum.val_jmax huw hcw]
        exact le_trans (le_trans (by norm_num) hu1) (le_max_left _ _)
      · rw [JsNum.val_jmax huw hcw]
        exact max_le (le_trans hu2 (by norm_num)) (le_trans hc2 (by norm_num))
      · intro hnil
        rw [List.append_eq_nil] at hnil
        have h2 := hnil.2
        rw [if_pos (List.length_pos.mpr hxind)] at h2
        exact List.cons_ne_nil _ _ h2
    · rw [if_neg hAgree]
      by_cases hCont : JsNum.blt us.confidence x.confidence = true ∧
          x.category ≠ Category.unknown
      · rw [if_pos hCont]
        have hq75 : (JsNum.q 75 100).val = 75/100 := by norm_num [JsNum.val, JsNum.q]
        have hx0 : (0 : ℚ) ≤ x.confidence.val := le_trans (by norm_num) hc1
        refine ⟨?_, ?_, by simp⟩
        · rw [JsNum.val_mul, hq75]
          exact mul_nonneg hx0 (by norm_num)
        · rw [JsNum.val_mul, hq75]
          nlinarith
      · rw [if_neg hCont]
        by_cases hUrlu : us.category ≠ Category.unknown
        · rw [if_pos hUrlu]
          refine ⟨?_, ?_, by simp⟩
          · rw [JsNum.val_jmin (JsNum.wf_mul huw h75) (by norm_num [JsNum.Wf, JsNum.q])]
            have hq75 : (JsNum.q 75 100).val = 75/100 := by norm_num [JsNum.val, JsNum.q]
            refine le_min ?_ (by norm_num [JsNum.val, JsNum.q])
            rw [JsNum.val_mul, hq75]
            nlinarith
          · rw [JsNum.val_jmin (JsNum.wf_mul huw h75) (by norm_num [JsNum.Wf, JsNum.q])]
            exact le_trans (min_le_right _ _) (by norm_num [JsNum.val, JsNum.q])
        · rw [if_neg hUrlu]
          exact ⟨by norm_num [JsNum.val, JsNum.q], by norm_num [JsNum.val, JsNum.q], by simp⟩

/-! ### Claim theorems -/

/-- C1: within one crawl session the per-page processing step is invoked at
most once per normalized URL — the processing trace is exactly the `visited`
list (the URL enters `visited` at the moment its processing is submitted),
`visited` never repeats a normalized URL, and a traversal of a URL whose
normalized form is already in `visited` is a no-op. -/
theorem c1_processing_at_most_once :
    (∀ env opts,
      (crawl env opts).2.procTrace.map PEvent.norm = (crawl env opts).2.visited ∧
        (crawl env opts).2.visited.Nodup) ∧
    (∀ env opts category name maxDepth fuel url depth s,
      normalizeUrl env url ∈ s.visited →
        crawlRec env opts category name maxDepth fuel url depth s = s) := by
  constructor
  · intro env opts
    rw [crawl_snd]
    split
    · exact ⟨rfl, List.nodup_nil⟩
    · exact crawlRec_procInv env opts _ _ _ _ _ _ _ ⟨rfl, List.nodup_nil⟩
  · intro env opts category name maxDepth fuel url depth s h
    exact crawlRec_visited_noop env opts category name maxDepth fuel url depth s h

/-- Witness for C1 at a concrete input: revisiting the already-visited seed
is a no-op. -/
theorem c1_witness :
    crawlRec envA optsDepth0 "tools" "x.test" 3 4 "https://x.test/a" 0 sessionSeedVisited
      = sessionSeedVisited :=
  c1_processing_at_most_once.2 envA optsDepth0 "tools" "x.test" 3 4 "https://x.test/a" 0
    sessionSeedVisited (by decide)

/-- C2 (evaluation at the failing input): `crawl({url: "https://x.test/a",
max_depth: 0})` against a seed with five outbound same-host links does NOT
give `processed = 1, discovered = 0`.  Because `0` is falsy in
`options.max_depth || siteConfig.max_depth || defaultMaxDepth`, the crawl
runs at the configured default depth 3: all five links are harvested and
processed (`processed = 6`, `discovered = 5`). -/
theorem c2_max_depth_zero_falsy :
    effMaxDepth envA optsDepth0 = 3 ∧
    (crawl envA optsDepth0).1.stats.processed = 6 ∧
    (crawl envA optsDepth0).1.stats.discovered = 5 := by decide

/-- C3 (evaluation at the failing input): the document written by
`processPage` contains no newline character at all — the metadata block is
joined with the literal two-character sequence backslash-n (the TypeScript
source says `.join('\\n')`), so there is no blank line between the block and
the body. -/
theorem c3_frontmatter_has_no_newlines :
    processPage envA "tools" "x.test" "https://x.test/a" =
      Except.ok ("/docs/tools/x.test/a.md", c3Content) ∧
    c3Content.data.all (fun c => c ≠ '\n') = true ∧
    (crawl envA optsDepth0).2.written.head? =
      some ("/docs/tools/x.test/a.md", c3Content) :=
  ⟨rfl, by decide, by decide⟩

/-- C4 counterexample: `categorize("https://api.example.com/docs")` does not
return confidence 0.85 — the tool URL pattern set does not match `/docs`
(the pattern `\/docs?\//` needs a trailing slash), so the both-sets
subdomain-precedence rule does not apply. -/
theorem c4_counterexample :
    (categorize "https://api.example.com/docs" none).confidence.val ≠ 85/100 := by
  have h : (categorize "https://api.example.com/docs" none).confidence = JsNum.q 90 100 := by
    decide
  rw [h]
  norm_num [JsNum.val, JsNum.q]

/-- C4 amended: `categorize("https://api.example.com/docs")` with no content
returns category `apis` with confidence 0.9 — by the match-count rule
(`min(0.8 + 0.1·1, 0.95)`, only `api\.` matches), not by the 0.85
subdomain-precedence rule. -/
theorem c4_amended :
    categorize "https://api.example.com/docs" none =
      ⟨Category.apis, JsNum.q 90 100, ["URL patterns matched: api\\."]⟩ ∧
    (categorize "https://api.example.com/docs" none).confidence.val = 9/10 := by
  refine ⟨by decide, ?_⟩
  have h : (categorize "https://api.example.com/docs" none).confidence = JsNum.q 90 100 := by
    decide
  rw [h]
  norm_num [JsNum.val, JsNum.q]

/-- C5 counterexample: two URL pairs that differ only by query-parameter
order (with a duplicated name) resp. only by a trailing slash (appended to a
pathname already ending in a slash) normalize to different keys —
`searchParams.sort()` is stable and keeps equal names in input order, and
`replace(/\/$/,'')` strips a single slash. -/
theorem c5_counterexample :
    (List.Perm [("a", "1"), ("a", "2")] [("a", "2"), ("a", "1")] ∧
      normalizeUrl envQ "https://q.test/p?a=1&a=2" ≠
        normalizeUrl envQ "https://q.test/p?a=2&a=1") ∧
    (pathnameOf ["a", "", ""] = pathnameOf ["a", ""] ++ "/" ∧
      normalizeUrl envQ "https://q.test/a/" ≠ normalizeUrl envQ "https://q.test/a//") := by
  decide

/-- C5 amended: for URLs that differ only by the presence or content of a
fragment, by the order of query parameters with pairwise-distinct names, or
by one trailing slash appended to a pathname not already ending in a slash,
`normalizeUrl` returns the identical string key. -/
theorem c5_amended (env : Env) (s1 s2 : String) (u1 u2 : UrlParts)
    (h1 : env.parseUrl s1 = some u1) (h2 : env.parseUrl s2 = some u2)
    (hscheme : u1.scheme = u2.scheme) (hhost : u1.host = u2.host)
    (hpath : slashApart u1.path u2.path)
    (hq : List.Perm u1.query u2.query)
    (hnames : (u1.query.map Prod.fst).Nodup) :
    normalizeUrl env s1 = normalizeUrl env s2 := by
  simp only [normalizeUrl, h1, h2, serializeUrl, normalizeParsed]
  rw [hscheme, hhost, trimTrailingSlash_eq_of_slashApart hpath,
      sortParams_eq_of_perm hq hnames]

/-- Witness for C5 amended: distinct-name query reorder, fragment, and a
trailing slash at once. -/
theorem c5_amended_witness :
    normalizeUrl envQ "https://q.test/p?b=2&a=1" =
      normalizeUrl envQ "https://q.test/p/?a=1&b=2#sec" :=
  c5_amended envQ "https://q.test/p?b=2&a=1" "https://q.test/p/?a=1&b=2#sec"
    ⟨"https", "q.test", ["p"], [("b", "2"), ("a", "1")], none⟩
    ⟨"https", "q.test", ["p", ""], [("a", "1"), ("b", "2")], some "sec"⟩
    (by decide) (by decide) rfl rfl
    (Or.inr (Or.inl ⟨rfl, by decide⟩)) (by decide) (by decide)

/-- C6: every fetch performed by the traversal — both the per-page
processing fetch and the link-harvesting fetch — is for a URL whose
hostname equals the seed's hostname (`isSameDomain` against `options.url`
holds for every recorded fetch event). -/
theorem c6_same_domain_only (env : Env) (opts : CrawlOptions) :
    ((crawl env opts).2.procTrace).all (fun e => isSameDomain env e.url opts.url) = true ∧
    ((crawl env opts).2.harvestTrace).all (fun h => isSameDomain env h.1 opts.url) = true := by
  have hdom : DomInv env opts (crawl env opts).2 := by
    rw [crawl_snd]
    split
    · exact ⟨fun e he => absurd he (List.not_mem_nil e),
        fun h hh => absurd hh (List.not_mem_nil h)⟩
    · exact crawlRec_domInv env opts _ _ _ _ _ _ _
        ⟨fun e he => absurd he (List.not_mem_nil e),
          fun h hh => absurd hh (List.not_mem_nil h)⟩
  exact ⟨List.all_eq_true.mpr hdom.1, List.all_eq_true.mpr hdom.2⟩

/-- C7 counterexample: the existence short-circuit returns `success = true`
together with a nonempty `errors` list, so `success ↔ errors = []` does not
hold for every returned result. -/
theorem c7_counterexample :
    (crawl envExists optsPlain).1.success = true ∧
    (crawl envExists optsPlain).1.errors ≠ [] := by decide

/-- C7 amended: for every crawl that does not take the existence
short-circuit, `success` is true iff the errors list is empty; the
short-circuit result instead has `success = true` with exactly one
explanatory error string. -/
theorem c7_amended (env : Env) (opts : CrawlOptions) :
    (shortCircuits env opts = false →
      ((crawl env opts).1.success = true ↔ (crawl env opts).1.errors = [])) ∧
    (shortCircuits env opts = true →
      (crawl env opts).1.success = true ∧
        (crawl env opts).1.errors =
          ["Documentation already exists. Use force_refresh to update."]) := by
  constructor
  · intro h
    unfold crawl
    rw [if_neg (by simp [h])]
    dsimp only
    exact List.isEmpty_iff
  · intro h
    unfold crawl
    rw [if_pos h]
    exact ⟨rfl, rfl⟩

/-- Witness for C7 amended at concrete inputs: a normal crawl satisfies the
equivalence, and a short-circuited crawl returns the singleton error. -/
theorem c7_amended_witness :
    ((crawl envA optsPlain).1.success = true ↔ (crawl envA optsPlain).1.errors = []) ∧
    ((crawl envExists optsPlain).1.success = true ∧
      (crawl envExists optsPlain).1.errors =
        ["Documentation already exists. Use force_refresh to update."]) :=
  ⟨(c7_amended envA optsPlain).1 (by decide), (c7_amended envExists optsPlain).2 (by decide)⟩

/-- C8: `categorize` always returns a confidence in `[0, 1]` and a nonempty
reasons list, for every URL string (including malformed ones) and every
optional content string (including the empty string).  Determinism is
inherent: the embedding is a pure function of its two arguments. -/
theorem c8_categorize_total (url : String) (content : Option String) :
    0 ≤ (categorize url content).confidence.val ∧
      (categorize url content).confidence.val ≤ 1 ∧
      (categorize url content).reasons ≠ [] := by
  unfold categorize
  dsimp only
  refine combineScores_total _ _ (analyzeUrl_bounds url) ?_
  intro x hx
  rcases content with _ | c
  · exact absurd hx (by simp)
  · dsimp only at hx
    by_cases hcne : c ≠ ""
    · rw [if_pos hcne] at hx
      obtain rfl : analyzeContent c = x := Option.some.inj hx
      exact ⟨analyzeContent_bounds c, analyzeContent_indicators c⟩
    · rw [if_neg hcne] at hx
      exact absurd hx (by simp)

/-- C9: a traversed page passing every guard whose extracted content is
whitespace-only adds exactly one entry (containing the URL) to `errors`,
adds nothing to `savedFiles`, harvests no links, and the traversal continues
with the remaining frontier — in the concrete `y.test` scenario the sibling
after the failing page is still saved, and the failing page never appears in
the harvest trace. -/
theorem c9_whitespace_page (env : Env) (opts : CrawlOptions) (category name : String)
    (maxDepth fuel : Nat) (url : String) (depth : Nat) (s : Session)
    (hmem : normalizeUrl env url ∉ s.visited)
    (hdepth : depth ≤ maxDepth)
    (hinc : includeSkip env opts url = false)
    (hexc : excludeSkip env opts url = false)
    (hdom : isSameDomain env url opts.url = true)
    (hrender : env.renderOk url = true)
    (hempty : strTrim (env.pageContent url) = "") :
    crawlRec env opts category name maxDepth (fuel + 1) url depth s =
      recordError (markVisited s url (normalizeUrl env url) depth) url
        "No content extracted" ∧
    (crawl envB optsB).1.savedFiles =
      ["/docs/tools/y.test/s.md", "/docs/tools/y.test/g.md"] ∧
    (crawl envB optsB).1.errors =
      ["Failed to process https://y.test/b: No content extracted"] ∧
    (crawl envB optsB).2.harvestTrace =
      [("https://y.test/s", 0), ("https://y.test/g", 1)] :=
  ⟨crawlRec_empty_content env opts category name maxDepth fuel url depth s
      hmem hdepth hinc hexc hdom hrender hempty,
    by decide, by decide, by decide⟩

/-- Witness for C9 at a concrete input: the whitespace-only page `/b`. -/
theorem c9_witness :
    crawlRec envB optsB "tools" "y.test" 3 1 "https://y.test/b" 1 initSession =
      recordError
        (markVisited initSession "https://y.test/b"
          (normalizeUrl envB "https://y.test/b") 1)
        "https://y.test/b" "No content extracted" :=
  (c9_whitespace_page envB optsB "tools" "y.test" 3 0 "https://y.test/b" 1 initSession
    (by decide) (by decide) (by decide) (by decide) (by decide) (by decide) (by decide)).1

/-- C10: `matchesPatterns(url, [])` is false for every URL, and a crawl with
`include_patterns: []` processes and saves nothing — every URL including the
seed fails the include check (`[]` is truthy in JS, so the check runs) — and
returns all-zero stats with `success = true`. -/
theorem c10_empty_include_patterns (env : Env) (opts : CrawlOptions) (url : String)
    (h : opts.include_patterns = some []) :
    matchesPatterns env url [] = false ∧
    (crawl env opts).1.stats = ⟨0, 0, 0, 0, none⟩ ∧
    (crawl env opts).1.success = true ∧
    (crawl env opts).1.savedFiles = [] ∧
    (crawl env opts).2.procTrace = [] := by
  refine ⟨rfl, ?_⟩
  unfold crawl
  by_cases hsc : shortCircuits env opts = true
  · rw [if_pos hsc]
    exact ⟨rfl, rfl, rfl, rfl⟩
  · rw [if_neg hsc]
    dsimp only
    have hstop : crawlRec env opts (categoryStr (crawlCategorization env opts).category)
        (crawlSiteConfig env opts).name (effMaxDepth env opts) (effMaxDepth env opts + 1)
        opts.url 0 initSession = initSession := by
      simp only [crawlRec]
      rw [if_neg (by push_neg; exact ⟨List.not_mem_nil _, Nat.zero_le _⟩),
          if_pos (by simp [includeSkip, h, matchesPatterns])]
    rw [hstop]
    exact ⟨rfl, rfl, rfl, rfl⟩

/-- Witness for C10 at a concrete input. -/
theorem c10_witness :
    matchesPatterns envA "https://x.test/a" [] = false ∧
    (crawl envA optsEmptyInclude).1.stats = ⟨0, 0, 0, 0, none⟩ ∧
    (crawl envA optsEmptyInclude).1.success = true ∧
    (crawl envA optsEmptyInclude).1.savedFiles = [] ∧
    (crawl envA optsEmptyInclude).2.procTrace = [] :=
  c10_empty_include_patterns envA optsEmptyInclude "https://x.test/a" rfl

end McpDocs
